import Mathlib

/-
Shallow embedding of the discovery / task-orchestration core of the
github-tuner repository (src/tuner/storage.py, workers.py, slicer.py,
monitor.py, tactics.py), together with theorems settling the spec claims.

Modelling conventions:
* SQLite rows become Lean structures; a table is a `List` of rows.
* Task ids are `uuid4()` strings in the source, distinct with certainty for
  the purposes of the queue logic; they are modelled as naturals issued by a
  counter, which realises that distinctness.  `created_at` is
  `CURRENT_TIMESTAMP`; it is modelled by the same strictly increasing counter
  (insertion order), which realises the oldest-first tie-break.
* Python floats on timestamps and weights are modelled as `ℚ` (the arithmetic
  involved — sums, halving, `min`/`max` — is exact).
* `random.choice` / `random.choices` are modelled nondeterministically: the
  theorems quantify over the index actually drawn.
-/

namespace Tuner

/-- Status values stored in the `status` column of the `tasks` table
(storage.py: `'pending' | 'processing' | 'completed' | 'failed'`). -/
inductive TaskStatus
  | pending
  | processing
  | completed
  | failed
deriving DecidableEq, Repr

/-- A row of the `tasks` table (storage.py `_create_tables`):
`id TEXT PRIMARY KEY, type TEXT, payload TEXT, priority INTEGER,
status TEXT DEFAULT 'pending', retry_count INTEGER DEFAULT 0,
created_at TIMESTAMP DEFAULT CURRENT_TIMESTAMP`. -/
structure Task where
  id : Nat
  ttype : String
  payload : String
  priority : Int
  status : TaskStatus
  retryCount : Nat
  createdAt : Nat
deriving DecidableEq, Repr

/-- The `tasks` table plus the fresh-id counter (uuid4 / CURRENT_TIMESTAMP,
see the modelling conventions above). -/
structure TaskQueue where
  tasks : List Task
  next : Nat
deriving DecidableEq, Repr

/-- The queue of a freshly initialised database. -/
def emptyQueue : TaskQueue := { tasks := [], next := 0 }

/-- storage.py `TaskQueue.enqueue_task`: INSERT a new row with a fresh id,
status `'pending'`, retry count 0.  Returns the new id and the new state. -/
def enqueue_task (q : TaskQueue) (taskType : String) (payload : String)
    (priority : Int) : Nat × TaskQueue :=
  let t : Task :=
    { id := q.next, ttype := taskType, payload := payload, priority := priority,
      status := TaskStatus.pending, retryCount := 0, createdAt := q.next }
  (q.next, { tasks := q.tasks ++ [t], next := q.next + 1 })

/-- storage.py `pop_task`, the per-worker type filter:
`'scout' → type = 'search'`, `'fetcher' → type = 'fetch_readme'`,
`'processor' → type = 'analyze'`; any other non-empty worker type, or none,
adds no type condition. -/
def workerTypeFilter : Option String → Task → Bool
  | some "scout", t => t.ttype == "search"
  | some "fetcher", t => t.ttype == "fetch_readme"
  | some "processor", t => t.ttype == "analyze"
  | _, _ => true

/-- The SQL `ORDER BY priority DESC, created_at ASC LIMIT 1` over a candidate
row list (created_at values are pairwise distinct, see conventions). -/
def selectTop : List Task → Option Task
  | [] => none
  | t :: ts =>
    match selectTop ts with
    | none => some t
    | some b =>
      if b.priority > t.priority ∨ (b.priority = t.priority ∧ b.createdAt < t.createdAt)
      then some b else some t

/-- The SQL `UPDATE tasks SET status = s WHERE id = i`. -/
def setStatus (tasks : List Task) (i : Nat) (s : TaskStatus) : List Task :=
  tasks.map fun t => if t.id = i then { t with status := s } else t

/-- storage.py `TaskQueue.pop_task`: under one immediate (write-locking)
transaction, select the highest-priority oldest `'pending'` row matching the
worker-type filter, flip it to `'processing'`, commit, and return the row as
fetched (i.e. still showing status `'pending'`); if no match, return none. -/
def pop_task (q : TaskQueue) (workerType : Option String) :
    Option Task × TaskQueue :=
  let candidates := q.tasks.filter fun t =>
    t.status == TaskStatus.pending && workerTypeFilter workerType t
  match selectTop candidates with
  | some t => (some t, { q with tasks := setStatus q.tasks t.id TaskStatus.processing })
  | none => (none, q)

/-- storage.py `TaskQueue.complete_task`:
`UPDATE tasks SET status = 'completed' WHERE id = ?` — unconditional. -/
def complete_task (q : TaskQueue) (i : Nat) : TaskQueue :=
  { q with tasks := setStatus q.tasks i TaskStatus.completed }

/-- storage.py `TaskQueue.fail_task`: read the current `retry_count`
(0 if the row is absent); if it is `< 3`, set status `'pending'` and increment
`retry_count`; otherwise set status `'failed'`. -/
def fail_task (q : TaskQueue) (i : Nat) : TaskQueue :=
  let retries :=
    match q.tasks.find? (fun t => t.id == i) with
    | some t => t.retryCount
    | none => 0
  if retries < 3 then
    { q with tasks := q.tasks.map fun t =>
        if t.id = i then
          { t with status := TaskStatus.pending, retryCount := t.retryCount + 1 }
        else t }
  else
    { q with tasks := setStatus q.tasks i TaskStatus.failed }

/-- A row of the `findings` table (storage.py): `id INTEGER PRIMARY KEY
AUTOINCREMENT, title, url TEXT UNIQUE NOT NULL, description, stars, language,
embedding BLOB, status TEXT DEFAULT 'pending'`.  The embedding blob is an
opaque byte list. -/
structure Finding where
  id : Nat
  title : String
  url : String
  description : String
  stars : Int
  language : String
  embedding : List Nat
  status : String
deriving DecidableEq, Repr

/-- The `findings` table plus the AUTOINCREMENT counter (sqlite rowids start
at 1 and are strictly increasing under AUTOINCREMENT). -/
structure FindingsTable where
  rows : List Finding
  nextId : Nat
deriving DecidableEq, Repr

/-- The findings table of a freshly initialised database. -/
def emptyFindings : FindingsTable := { rows := [], nextId := 1 }

/-- storage.py `TunerStorage.save_finding`: INSERT the row with status
`'pending'` and return `cursor.lastrowid`; a `sqlite3.IntegrityError` from the
UNIQUE url constraint is caught and `-1` is returned, leaving the table
untouched. -/
def save_finding (db : FindingsTable) (title url description : String)
    (stars : Int) (language : String) (embedding : List Nat) :
    Int × FindingsTable :=
  if db.rows.any (fun f => f.url == url) then
    (-1, db)
  else
    let f : Finding :=
      { id := db.nextId, title := title, url := url, description := description,
        stars := stars, language := language, embedding := embedding,
        status := "pending" }
    ((db.nextId : Int), { rows := db.rows ++ [f], nextId := db.nextId + 1 })

/-- monitor.py `RateLimitMonitor` state: `remaining` (default 5000),
`reset_time` (default 0), `safety_buffer` (default 5). -/
structure RateLimitMonitor where
  remaining : Int
  reset_time : Int
  safety_buffer : Int
deriving DecidableEq, Repr

/-- monitor.py `RateLimitMonitor.check_and_sleep`, as a pure function of the
state and the current clock `now = int(time.time())`.  Returns the number of
seconds slept and the post state: if `remaining < safety_buffer`, compute
`wait = max(0, reset_time - now + 1)`; only when `wait > 0` does it sleep and
afterwards optimistically set `remaining = 5000`; otherwise (and when the
buffer is not hit) it returns at once with the state unchanged. -/
def check_and_sleep (m : RateLimitMonitor) (now : Int) : Int × RateLimitMonitor :=
  if m.remaining < m.safety_buffer then
    let wait := max 0 (m.reset_time - now + 1)
    if wait > 0 then (wait, { m with remaining := 5000 })
    else (0, m)
  else (0, m)

/-- slicer.py `split_date_range`: timestamps are modelled as rational epoch
seconds (pendulum datetimes with fractional-second precision); the midpoint
is `start + (end - start) / 2` seconds.  Returns `(start, midpoint, end)`. -/
def split_date_range (startDate endDate : ℚ) : ℚ × ℚ × ℚ :=
  (startDate, startDate + (endDate - startDate) / 2, endDate)

/-- slicer.py `get_query_with_date` appends `created:start..end` to the query
string.  Since ISO-8601 formatting of a timestamp is injective, the dated
query string is modelled structurally as the triple (base, start, end). -/
structure DatedQuery where
  base : String
  startDate : ℚ
  endDate : ℚ
deriving DecidableEq, Repr

/-- slicer.py `get_query_with_date` (see `DatedQuery`). -/
def get_query_with_date (query : String) (startDate endDate : ℚ) : DatedQuery :=
  { base := query, startDate := startDate, endDate := endDate }

/-- A task enqueued by the discovery handler (workers.py): either a child
`'discovery'` task (payload `query/start_date/end_date`, explicit priority) or
a `'search'` task (payload dated query + page, priority 5). -/
inductive DiscoveryMsg
  | discovery (query : String) (startDate endDate : ℚ) (priority : Int)
  | search (query : DatedQuery) (page : Nat) (priority : Int)
deriving DecidableEq, Repr

/-- workers.py `WorkerManager._handle_discovery_task`, as a function of the
task payload (`query`, `start_date`, `end_date`), the claimed task's priority
and the probe's `total_count`; returns the list of tasks it enqueues, in
order.  `math.ceil(total_count / 100.0)` is exact natural ceiling division
here (`total_count ≤ 1000` in that branch, far below float precision loss). -/
def handle_discovery_task (baseQuery : String) (startDate endDate : ℚ)
    (taskPriority : Int) (totalCount : Nat) : List DiscoveryMsg :=
  let fullQuery := get_query_with_date baseQuery startDate endDate
  if totalCount > 1000 then
    let smE := split_date_range startDate endDate
    [DiscoveryMsg.discovery baseQuery smE.1 smE.2.1 (taskPriority + 1),
     DiscoveryMsg.discovery baseQuery smE.2.1 smE.2.2 (taskPriority + 1)]
  else
    let pages := min 10 ((totalCount + 99) / 100)
    let pages := if pages = 0 && totalCount > 0 then 1 else pages
    (List.range pages).map fun p => DiscoveryMsg.search fullQuery (p + 1) 5

/-- The leaf windows of the recursive date bisection: `counts s e` is the
API's `total_count` for the window `[s, e]` (it is stable across probes);
a window with more than 1000 results (the cap hard-coded in
`_handle_discovery_task`) is split at its midpoint and both halves are
recursed into, a window at or under the cap is a "safe" leaf.  The
queue-driven recursion has no depth bound, so the recursion is modelled with
explicit fuel: a run of the pipeline that terminates corresponds to
`bisectLeaves` returning `some` leaves for a sufficiently large fuel. -/
def bisectLeaves (counts : ℚ → ℚ → Nat) : Nat → ℚ → ℚ → Option (List (ℚ × ℚ))
  | 0, _, _ => none
  | fuel + 1, s, e =>
    if counts s e > 1000 then
      match bisectLeaves counts fuel s (split_date_range s e).2.1,
            bisectLeaves counts fuel (split_date_range s e).2.1 e with
      | some l, some r => some (l ++ r)
      | _, _ => none
    else
      some [(s, e)]

/-- tactics.py `SearchTactic` dataclass (the query-construction fields are
carried verbatim; `weight` is the mutable selection weight, a float modelled
as `ℚ`). -/
structure SearchTactic where
  name : String
  description : String
  stars_min : Int := 10
  stars_max : Option Int := none
  date_filter : Option String := none
  sort_by : String := "updated"
  page_range : Nat × Nat := (1, 5)
  per_page : Nat := 10
  keyword_strategy : String := "all"
  weight : ℚ := 1
deriving DecidableEq, Repr

/-- tactics.py `DEFAULT_TACTICS`: the fixed pool seeded at startup. -/
def DEFAULT_TACTICS : List SearchTactic :=
  [{ name := "trending", description := "Son 30 günde güncellenen, aktif projeler",
     stars_min := 20, date_filter := some "pushed:>\x7b30_days_ago\x7d", sort_by := "updated",
     page_range := (1, 3), weight := 3/2 },
   { name := "rising_stars", description := "Düşük yıldız ama aktif - henüz keşfedilmemiş",
     stars_min := 10, stars_max := some 100, date_filter := some "pushed:>\x7b14_days_ago\x7d",
     sort_by := "updated", page_range := (1, 5), weight := 6/5 },
   { name := "established", description := "Yüksek yıldızlı, kanıtlanmış projeler",
     stars_min := 500, sort_by := "stars", page_range := (1, 10), weight := 1 },
   { name := "deep_dive", description := "Derin sayfalarda arama - az görülen sonuçlar",
     stars_min := 50, sort_by := "updated", page_range := (5, 20), per_page := 30,
     weight := 4/5 },
   { name := "keyword_rotation", description := "Farklı keyword kombinasyonları dene",
     stars_min := 30, keyword_strategy := "rotate", page_range := (1, 5), weight := 1 },
   { name := "fresh_projects", description := "Son 7 günde oluşturulan yeni projeler",
     stars_min := 5, date_filter := some "created:>\x7b7_days_ago\x7d", sort_by := "stars",
     page_range := (1, 3), weight := 7/10 }]

/-- tactics.py `TacticEngine` state: `tactics` is the name-keyed dict in
insertion order (names are unique), `history` is
`_mission_tactic_history` (a missing mission key reads as `[]`). -/
structure TacticEngine where
  tactics : List SearchTactic
  history : String → List String

/-- The engine as constructed by `TacticEngine.__init__`. -/
def TacticEngine.init : TacticEngine :=
  { tactics := DEFAULT_TACTICS, history := fun _ => [] }

/-- Python `history[-3:]`: the last `n` elements of a list. -/
def lastN (n : Nat) (l : List String) : List String := l.drop (l.length - n)

/-- tactics.py `rotate_tactic`, the candidate list the random draw is made
from: the tactics whose name is not among the mission's last three recorded
selections, falling back to the full pool when that filter empties it. -/
def rotate_available (engine : TacticEngine) (missionName : String) :
    List SearchTactic :=
  let recent := lastN 3 (engine.history missionName)
  let available := engine.tactics.filter fun t => decide (t.name ∉ recent)
  if available.isEmpty then engine.tactics else available

/-- tactics.py `TacticEngine.rotate_tactic`: `random.choice(available)` is
modelled by the caller-supplied draw index `pick` (reduced mod the candidate
count); the selected name is appended to the mission's history.  Returns
`none` exactly when the engine holds no tactics at all (there
`random.choice` raises). -/
def rotate_tactic (engine : TacticEngine) (missionName : String) (pick : Nat) :
    Option (SearchTactic × TacticEngine) :=
  let available := rotate_available engine missionName
  (available.get? (pick % available.length)).map fun selected =>
    (selected,
     { engine with history := fun m =>
         if m = missionName then engine.history missionName ++ [selected.name]
         else engine.history m })

/-- tactics.py `TacticEngine.update_tactic_weight`: if the named tactic
exists, set its weight to `max(0.3, min(2.0, 0.5 + 1.5 * success_rate))`;
otherwise do nothing. -/
def update_tactic_weight (engine : TacticEngine) (tacticName : String)
    (successRate : ℚ) : TacticEngine :=
  if engine.tactics.any (fun t => t.name == tacticName) then
    let new_weight : ℚ := 1/2 + 3/2 * successRate
    { engine with tactics := engine.tactics.map fun t =>
        if t.name = tacticName then
          { t with weight := max (3/10) (min 2 new_weight) }
        else t }
  else engine

/-- The operations of claim C2's call sequences: `enqueue_task` and
`pop_task` (no intervening `fail_task`). -/
inductive QueueOp
  | enqueue (taskType : String) (payload : String) (priority : Int)
  | claim (workerType : Option String)

/-- Run a sequence of queue operations from a state, collecting the tasks
returned by the claim calls, in order. -/
def runOps : TaskQueue → List QueueOp → TaskQueue × List Task
  | q, [] => (q, [])
  | q, QueueOp.enqueue ty pl pr :: ops => runOps (enqueue_task q ty pl pr).2 ops
  | q, QueueOp.claim wt :: ops =>
    match pop_task q wt with
    | (some t, q') =>
      let rest := runOps q' ops
      (rest.1, t :: rest.2)
    | (none, q') => runOps q' ops

/-- Predicate `chainFrom a l b`: the windows of `l` are consecutive — the first starts
at `a`, each window starts where the previous one ends, and the last ends at
`b` (for `l = []` this degenerates to `a = b`).  This is the no-gap backbone
of the bisection partition property. -/
def chainFrom : ℚ → List (ℚ × ℚ) → ℚ → Prop
  | a, [], b => a = b
  | a, w :: l, b => w.1 = a ∧ chainFrom w.2 l b

/-- Epoch seconds of 2024-01-01T00:00:00Z. -/
def date20240101 : ℚ := 1704067200

/-- Epoch seconds of 2024-01-02T00:00:00Z. -/
def date20240102 : ℚ := 1704153600

/-- Epoch seconds of 2024-01-03T00:00:00Z. -/
def date20240103 : ℚ := 1704240000

/-- A result-count oracle under which the window `[0, 2]` is over the cap
(1500 results) while both halves are safe (500 results each). -/
def overCapCounts : ℚ → ℚ → Nat := fun s e => if 1 < e - s then 1500 else 500

/-- Demo queue: one freshly enqueued `'search'` task. -/
def demoQueue1 : TaskQueue := (enqueue_task emptyQueue "search" "p" 0).2

/-- The single task of `demoQueue1`. -/
def demoTask1 : Task :=
  { id := 0, ttype := "search", payload := "p", priority := 0,
    status := TaskStatus.pending, retryCount := 0, createdAt := 0 }

/-- State of `demoQueue1` after its task has been claimed. -/
def demoQueue1Claimed : TaskQueue :=
  { tasks := [{ demoTask1 with status := TaskStatus.processing }], next := 1 }

/-- Enqueue one task, then run `n` rounds of claim-then-fail on it (the
worker loop's behaviour when the task keeps raising). -/
def failCycles : Nat → TaskQueue
  | 0 => demoQueue1
  | n + 1 =>
    let q := failCycles n
    match pop_task q none with
    | (some t, q') => fail_task q' t.id
    | (none, q') => q'

/-- Demo queue: a single terminally `'failed'` task. -/
def demoFailedQueue : TaskQueue :=
  { tasks := [{ id := 0, ttype := "search", payload := "p", priority := 0,
                status := TaskStatus.failed, retryCount := 3, createdAt := 0 }],
    next := 1 }

/-- Demo queue holding one pending `'discovery'` task. -/
def discoveryDemoQueue : TaskQueue := (enqueue_task emptyQueue "discovery" "p" 0).2

/-- The single task of `discoveryDemoQueue`. -/
def discoveryDemoTask : Task :=
  { id := 0, ttype := "discovery", payload := "p", priority := 0,
    status := TaskStatus.pending, retryCount := 0, createdAt := 0 }

/-- Demo operation sequence for the claim-exclusivity run: two enqueues
followed by three scout claims (the third finds nothing). -/
def demoOps : List QueueOp :=
  [QueueOp.enqueue "search" "a" 0, QueueOp.enqueue "search" "b" 0,
   QueueOp.claim (some "scout"), QueueOp.claim (some "scout"),
   QueueOp.claim (some "scout")]

/-- Demo tactic engine whose mission `"m"` has just selected `trending`,
`rising_stars` and `established`. -/
def demoEngine : TacticEngine :=
  { tactics := DEFAULT_TACTICS,
    history := fun m =>
      if m = "m" then ["trending", "rising_stars", "established"] else [] }

/-- The `deep_dive` tactic of the default pool. -/
def demoDeepDive : SearchTactic :=
  { name := "deep_dive", description := "Derin sayfalarda arama - az görülen sonuçlar",
    stars_min := 50, sort_by := "updated", page_range := (5, 20), per_page := 30,
    weight := 4/5 }

/-- The `trending` tactic after `update_tactic_weight` with success rate 2. -/
def demoTrendingUpdated : SearchTactic :=
  { name := "trending", description := "Son 30 günde güncellenen, aktif projeler",
    stars_min := 20, date_filter := some "pushed:>\x7b30_days_ago\x7d", sort_by := "updated",
    page_range := (1, 3), weight := 2 }

/-- The row `demoTask1` after one `fail_task`. -/
def demoTask1Failed1 : Task := { demoTask1 with retryCount := 1 }

/-- The row `demoTask1` after being completed. -/
def demoTask1Completed : Task := { demoTask1 with status := TaskStatus.completed }

/-- Demo queue: a single `'completed'` task. -/
def demoCompletedQueue : TaskQueue :=
  { tasks := [demoTask1Completed], next := 1 }

/-- Rate-limit state whose reset time is long past (remaining 2, buffer 5). -/
def demoMonitorStale : RateLimitMonitor :=
  { remaining := 2, reset_time := 0, safety_buffer := 5 }

/-- Rate-limit state matching the spec scenario at clock 1000:
remaining 2, buffer 5, reset 10 seconds in the future. -/
def demoMonitorLow : RateLimitMonitor :=
  { remaining := 2, reset_time := 1010, safety_buffer := 5 }

/-- The findings table after one successful `save_finding` of url `"u"`. -/
def demoFindings1 : FindingsTable :=
  { rows := [{ id := 1, title := "T", url := "u", description := "D",
               stars := 7, language := "L", embedding := [], status := "pending" }],
    nextId := 2 }

section QueueLemmas

/-- The row selected by `ORDER BY ... LIMIT 1` comes from the candidate
list. -/
theorem selectTop_mem {l : List Task} {t : Task} (h : selectTop l = some t) :
    t ∈ l := by
  induction l with
  | nil => simp [selectTop] at h
  | cons a l ih =>
    rw [selectTop] at h
    cases hs : selectTop l with
    | none =>
      rw [hs] at h
      obtain rfl : a = t := Option.some.inj h
      exact List.mem_cons_self a l
    | some b =>
      rw [hs] at h
      simp only [] at h
      by_cases hc : b.priority > a.priority ∨
          (b.priority = a.priority ∧ b.createdAt < a.createdAt)
      · rw [if_pos hc] at h
        obtain rfl : b = t := Option.some.inj h
        exact List.mem_cons_of_mem a (ih hs)
      · rw [if_neg hc] at h
        obtain rfl : a = t := Option.some.inj h
        exact List.mem_cons_self a l

/-- Anatomy of a successful claim: the returned row is a `'pending'` row of
the table matching the worker filter, and the new state only flips that row's
status to `'processing'`. -/
theorem pop_task_some {q : TaskQueue} {wt : Option String} {t : Task}
    {q' : TaskQueue} (h : pop_task q wt = (some t, q')) :
    t ∈ q.tasks ∧ t.status = TaskStatus.pending ∧
      workerTypeFilter wt t = true ∧
      q' = { q with tasks := setStatus q.tasks t.id TaskStatus.processing } := by
  simp only [pop_task] at h
  cases hs : selectTop (q.tasks.filter fun u =>
      u.status == TaskStatus.pending && workerTypeFilter wt u) with
  | none => rw [hs] at h; simp at h
  | some b =>
    rw [hs] at h
    injection h with h1 h2
    obtain rfl : b = t := Option.some.inj h1
    have hmem := selectTop_mem hs
    have hfilter := List.mem_filter.mp hmem
    have hpred := hfilter.2
    rw [Bool.and_eq_true] at hpred
    refine ⟨hfilter.1, ?_, hpred.2, h2.symm⟩
    simpa using hpred.1

/-- A claim that returns nothing leaves the queue untouched. -/
theorem pop_task_none {q : TaskQueue} {wt : Option String} {q' : TaskQueue}
    (h : pop_task q wt = (none, q')) : q' = q := by
  simp only [pop_task] at h
  cases hs : selectTop (q.tasks.filter fun u =>
      u.status == TaskStatus.pending && workerTypeFilter wt u) with
  | none => rw [hs] at h; injection h with h1 h2; exact h2.symm
  | some b => rw [hs] at h; simp at h

/-- With pairwise-distinct ids, a row is determined by its id. -/
theorem mem_id_unique {l : List Task} (hN : (l.map Task.id).Nodup) {t u : Task}
    (ht : t ∈ l) (hu : u ∈ l) (hid : u.id = t.id) : u = t :=
  List.inj_on_of_nodup_map hN hu ht hid

/-- With pairwise-distinct ids, `find?` by id retrieves the member itself. -/
theorem find_id_of_mem {l : List Task} (hN : (l.map Task.id).Nodup) {t : Task}
    (ht : t ∈ l) : l.find? (fun u => u.id == t.id) = some t := by
  induction l with
  | nil => cases ht
  | cons a l ih =>
    cases hpa : (a.id == t.id) with
    | true =>
      simp only [List.find?_cons, hpa]
      have : a = t :=
        mem_id_unique hN ht (List.mem_cons_self a l) (by simpa using hpa)
      rw [this]
    | false =>
      simp only [List.find?_cons, hpa]
      have htl : t ∈ l := by
        cases List.mem_cons.mp ht with
        | inl he => rw [he] at hpa; simp at hpa
        | inr htl => exact htl
      exact ih (by simpa [List.map_cons] using hN.of_cons) htl

/-- Effect of `fail_task` on the targeted row: below 3 recorded retries the
row returns to `'pending'` with the retry count incremented; at 3 or more it
is marked `'failed'` with the retry count untouched. -/
theorem fail_task_mem {q : TaskQueue} (hN : (q.tasks.map Task.id).Nodup)
    {t : Task} (ht : t ∈ q.tasks) :
    (t.retryCount < 3 →
      ∀ u ∈ (fail_task q t.id).tasks, u.id = t.id →
        u.status = TaskStatus.pending ∧ u.retryCount = t.retryCount + 1) ∧
    (3 ≤ t.retryCount →
      ∀ u ∈ (fail_task q t.id).tasks, u.id = t.id →
        u.status = TaskStatus.failed ∧ u.retryCount = t.retryCount) := by
  have hfind : q.tasks.find? (fun u => u.id == t.id) = some t :=
    find_id_of_mem hN ht
  constructor
  · intro hrc u hu hid
    simp only [fail_task, hfind] at hu
    rw [if_pos hrc] at hu
    obtain ⟨v, hv, rfl⟩ := List.mem_map.mp hu
    by_cases hveq : v.id = t.id
    · have hvt : v = t := mem_id_unique hN ht hv hveq
      subst hvt
      simp [if_pos hveq]
    · rw [if_neg hveq] at hid
      exact absurd hid hveq
  · intro hrc u hu hid
    simp only [fail_task, hfind] at hu
    rw [if_neg (by omega)] at hu
    obtain ⟨v, hv, rfl⟩ := List.mem_map.mp hu
    by_cases hveq : v.id = t.id
    · have hvt : v = t := mem_id_unique hN ht hv hveq
      subst hvt
      simp [if_pos hveq]
    · rw [if_neg hveq] at hid
      exact absurd hid hveq

/-- Effect of `complete_task`: every row carrying the id is set to
`'completed'` (unconditionally). -/
theorem complete_task_mem {q : TaskQueue} {i : Nat} :
    ∀ u ∈ (complete_task q i).tasks, u.id = i →
      u.status = TaskStatus.completed := by
  intro u hu hid
  simp only [complete_task, setStatus] at hu
  obtain ⟨v, hv, rfl⟩ := List.mem_map.mp hu
  by_cases hveq : v.id = i
  · simp [if_pos hveq]
  · rw [if_neg hveq] at hid
    exact absurd hid hveq

end QueueLemmas

/-- C1 (amended): `fail_task` on a task whose recorded retry count is below 3
returns it to `'pending'` with the count incremented, so it remains claimable
(claims select exactly the `'pending'` rows); on a task whose recorded retry
count has reached 3 — i.e. on its fourth failure — it is terminally
`'failed'`, and a claim call never returns a task whose status is not
`'pending'`, hence never a `'failed'` one. -/
theorem fail_task_retry_spec :
    (∀ (q : TaskQueue) (t : Task), (q.tasks.map Task.id).Nodup → t ∈ q.tasks →
      (t.retryCount < 3 →
        ∀ u ∈ (fail_task q t.id).tasks, u.id = t.id →
          u.status = TaskStatus.pending ∧ u.retryCount = t.retryCount + 1) ∧
      (3 ≤ t.retryCount →
        ∀ u ∈ (fail_task q t.id).tasks, u.id = t.id →
          u.status = TaskStatus.failed ∧ u.retryCount = t.retryCount)) ∧
    (∀ (q : TaskQueue) (wt : Option String) (t : Task) (q' : TaskQueue),
      pop_task q wt = (some t, q') → t.status = TaskStatus.pending) :=
  ⟨fun _ _ hN ht => fail_task_mem hN ht,
   fun _ _ _ _ h => (pop_task_some h).2.1⟩

/-- C1 counterexample: a freshly enqueued task that has gone through exactly
three claim-and-fail rounds is still `'pending'` (with retry count 3), not
`'failed'`, and is still returned by a claim call. -/
theorem fail_three_times_counterexample :
    (failCycles 3).tasks.map (fun t => (t.status, t.retryCount))
      = [(TaskStatus.pending, 3)] ∧
    (pop_task (failCycles 3) none).1 = some { demoTask1 with retryCount := 3 } := by
  decide

/-- Witness for C1: failing the demo task (retry count 0) leaves it pending
with retry count 1. -/
theorem fail_task_retry_spec_witness :
    demoTask1Failed1.status = TaskStatus.pending ∧
    demoTask1Failed1.retryCount = demoTask1.retryCount + 1 :=
  (fail_task_retry_spec.1 demoQueue1 demoTask1 (by decide) (by decide)).1
    (by decide) demoTask1Failed1 (by decide) (by decide)

/-- C3: the spec says a Scout claim matches pending `'search'` and
`'discovery'` tasks, and `scout_worker`'s own docstring and its
`task['type'] == 'discovery'` branch agree — but `pop_task('scout')` adds the
filter `type = 'search'` only, so on a queue whose only pending task is a
`'discovery'` task the Scout's claim returns none (the task is pending and
claimable with no filter, as the second conjunct shows). -/
theorem scout_filter_misses_discovery :
    (pop_task discoveryDemoQueue (some "scout")).1 = none ∧
    (pop_task discoveryDemoQueue none).1 = some discoveryDemoTask ∧
    discoveryDemoTask.ttype = "discovery" ∧
    discoveryDemoTask.status = TaskStatus.pending := by
  decide

/-- C4: `save_finding` is idempotent on URL — from a table without the URL,
the first insert succeeds returning the fresh rowid (a nonnegative value),
the duplicate insert returns `-1` (distinct from every success value, and not
an error: the IntegrityError is caught), leaves the table unchanged, exactly
one row with that URL is stored, and it is the row the first call created. -/
theorem save_finding_idempotent
    (db db1 db2 : FindingsTable) (r1 r2 : Int)
    (t1 u d1 la1 : String) (s1 : Int) (b1 : List Nat)
    (t2 d2 la2 : String) (s2 : Int) (b2 : List Nat)
    (hfresh : ∀ f ∈ db.rows, f.url ≠ u)
    (h1 : save_finding db t1 u d1 s1 la1 b1 = (r1, db1))
    (h2 : save_finding db1 t2 u d2 s2 la2 b2 = (r2, db2)) :
    r1 = (db.nextId : Int) ∧ 0 ≤ r1 ∧ r2 = -1 ∧ r2 ≠ r1 ∧ db2 = db1 ∧
    (db1.rows.filter (fun f => f.url == u)).length = 1 ∧
    ∀ f ∈ db1.rows, f.url = u →
      f = { id := db.nextId, title := t1, url := u, description := d1,
            stars := s1, language := la1, embedding := b1, status := "pending" } := by
  have hany : (db.rows.any fun f => f.url == u) = false := by
    rw [List.any_eq_false]
    intro f hf
    simpa using hfresh f hf
  rw [save_finding, hany] at h1
  simp only [Bool.false_eq_true, if_false] at h1
  injection h1 with hr1 hdb1
  subst hr1
  subst hdb1
  rw [save_finding] at h2
  have hany2 : ((db.rows ++
      [{ id := db.nextId, title := t1, url := u, description := d1,
         stars := s1, language := la1, embedding := b1,
         status := "pending" : Finding }]).any fun f => f.url == u) = true := by
    simp
  simp only [hany2, if_true] at h2
  injection h2 with hr2 hdb2
  subst hr2
  subst hdb2
  refine ⟨rfl, by positivity, rfl, by omega, rfl, ?_, ?_⟩
  · rw [List.filter_append]
    have hnil : db.rows.filter (fun f => f.url == u) = [] := by
      rw [List.filter_eq_nil_iff]
      intro f hf
      simpa using hfresh f hf
    simp [hnil]
  · intro f hf hurl
    rcases List.mem_append.mp hf with hl | hr
    · exact absurd hurl (hfresh f hl)
    · simpa using hr

/-- Witness for C4 on a concrete run from the empty table. -/
theorem save_finding_idempotent_witness :
    (1 : Int) = (emptyFindings.nextId : Int) ∧ (0 : Int) ≤ 1 ∧
    (-1 : Int) = -1 ∧ (-1 : Int) ≠ (1 : Int) ∧ demoFindings1 = demoFindings1 ∧
    (demoFindings1.rows.filter (fun f => f.url == "u")).length = 1 := by
  have h := save_finding_idempotent emptyFindings demoFindings1 demoFindings1
    1 (-1) "T" "u" "D" "L" 7 [] "T2" "D2" "L2" 9 []
    (by decide) (by decide) (by decide)
  exact ⟨h.1, h.2.1, h.2.2.1, h.2.2.2.1, h.2.2.2.2.1, h.2.2.2.2.2.1⟩

/-- C5: when the probe total exceeds the cap of 1000, the discovery handler
enqueues exactly two child `'discovery'` tasks, for the lower and upper half
around the temporal midpoint, each at the parent's priority plus one. -/
theorem handle_discovery_splits (q : String) (s e : ℚ) (p : Int) (total : Nat)
    (h : 1000 < total) :
    handle_discovery_task q s e p total =
      [DiscoveryMsg.discovery q s (s + (e - s) / 2) (p + 1),
       DiscoveryMsg.discovery q (s + (e - s) / 2) e (p + 1)] := by
  simp [handle_discovery_task, split_date_range, h]

/-- Witness for C5, the spec scenario: window 2024-01-01..2024-01-03 with a
probe total of 1500 yields the child windows 2024-01-01..2024-01-02 and
2024-01-02..2024-01-03 at priority 1. -/
theorem handle_discovery_splits_witness :
    handle_discovery_task "x" date20240101 date20240103 0 1500 =
      [DiscoveryMsg.discovery "x" date20240101 date20240102 1,
       DiscoveryMsg.discovery "x" date20240102 date20240103 1] := by
  rw [handle_discovery_splits "x" date20240101 date20240103 0 1500 (by norm_num)]
  norm_num [date20240101, date20240102, date20240103]

/-- C7 (amended): below the safety buffer, `check_and_sleep` sleeps
`max(0, reset_time - now + 1)` seconds; when that wait is positive it then
resets `remaining` to the optimistic default 5000, but when the wait is 0 it
returns at once and `remaining` is left unchanged (no reset). -/
theorem check_and_sleep_spec (m : RateLimitMonitor) (now : Int)
    (h : m.remaining < m.safety_buffer) :
    (check_and_sleep m now).1 = max 0 (m.reset_time - now + 1) ∧
    (0 < m.reset_time - now + 1 →
      (check_and_sleep m now).2 = { m with remaining := 5000 }) ∧
    (m.reset_time - now + 1 ≤ 0 → (check_and_sleep m now).2 = m) := by
  simp only [check_and_sleep, if_pos h]
  by_cases hw : max 0 (m.reset_time - now + 1) > 0
  · rw [if_pos hw]
    refine ⟨rfl, fun _ => rfl, fun hle => ?_⟩
    rw [max_eq_left hle] at hw
    exact absurd hw (lt_irrefl 0)
  · rw [if_neg hw]
    have hzero : max 0 (m.reset_time - now + 1) = 0 :=
      le_antisymm (not_lt.mp hw) (le_max_left _ _)
    refine ⟨hzero.symm, fun hpos => ?_, fun _ => rfl⟩
    exact absurd (lt_max_of_lt_right hpos) hw

/-- C7 counterexample: with remaining 2 below the buffer 5 but a reset time
in the past, the computed wait is 0, nothing is slept, and `remaining` stays
2 instead of being reset to the optimistic default 5000. -/
theorem check_and_sleep_no_reset_counterexample :
    demoMonitorStale.remaining < demoMonitorStale.safety_buffer ∧
    check_and_sleep demoMonitorStale 100 = (0, demoMonitorStale) ∧
    (check_and_sleep demoMonitorStale 100).2.remaining ≠ 5000 := by
  decide

/-- Witness for C7, the spec scenario: remaining 2, buffer 5, reset 10
seconds ahead of the clock — the call sleeps `max 0 11 = 11` (≈ 10) seconds
and resets remaining to 5000. -/
theorem check_and_sleep_spec_witness :
    (check_and_sleep demoMonitorLow 1000).1
        = max 0 (demoMonitorLow.reset_time - 1000 + 1) ∧
    (check_and_sleep demoMonitorLow 1000).2
        = { demoMonitorLow with remaining := 5000 } :=
  ⟨(check_and_sleep_spec demoMonitorLow 1000 (by decide)).1,
   (check_and_sleep_spec demoMonitorLow 1000 (by decide)).2.1 (by decide)⟩

/-- C8 (amended): a claim performs exactly the transition
pending → processing on the returned task and touches nothing else (an empty
claim changes nothing), and `complete_task` / `fail_task` applied to the task
a worker holds perform processing → completed and processing → pending
(retry < 3) / processing → failed (retry ≥ 3).  But both UPDATEs are
unguarded by status, so `'completed'` and `'failed'` are not terminal against
direct complete/fail calls (see the counterexample). -/
theorem task_status_transitions :
    (∀ (q : TaskQueue) (wt : Option String) (t : Task) (q' : TaskQueue),
      pop_task q wt = (some t, q') →
        t.status = TaskStatus.pending ∧
        q'.tasks = setStatus q.tasks t.id TaskStatus.processing ∧
        ∀ u ∈ q.tasks, u.id ≠ t.id → u ∈ q'.tasks) ∧
    (∀ (q : TaskQueue) (wt : Option String) (q' : TaskQueue),
      pop_task q wt = (none, q') → q' = q) ∧
    (∀ (q : TaskQueue) (i : Nat),
      ∀ u ∈ (complete_task q i).tasks, u.id = i →
        u.status = TaskStatus.completed) ∧
    (∀ (q : TaskQueue) (t : Task), (q.tasks.map Task.id).Nodup → t ∈ q.tasks →
      (t.retryCount < 3 → ∀ u ∈ (fail_task q t.id).tasks, u.id = t.id →
        u.status = TaskStatus.pending) ∧
      (3 ≤ t.retryCount → ∀ u ∈ (fail_task q t.id).tasks, u.id = t.id →
        u.status = TaskStatus.failed)) := by
  refine ⟨fun q wt t q' h => ?_, fun _ _ _ h => pop_task_none h,
    fun _ _ => complete_task_mem, fun q t hN ht => ?_⟩
  · obtain ⟨hmem, hpend, _, hq⟩ := pop_task_some h
    refine ⟨hpend, by rw [hq], fun u hu hne => ?_⟩
    rw [hq]
    have : u ∈ setStatus q.tasks t.id TaskStatus.processing := by
      rw [setStatus]
      refine List.mem_map.mpr ⟨u, hu, ?_⟩
      rw [if_neg hne]
    exact this
  · have hf := fail_task_mem hN ht
    exact ⟨fun hrc u hu hid => (hf.1 hrc u hu hid).1,
           fun hrc u hu hid => (hf.2 hrc u hu hid).1⟩

/-- C8 counterexample: the statuses `'completed'` and `'failed'` are not
terminal — completing a `'failed'` task flips it to `'completed'`, and
failing a `'completed'` task (retry count 0) flips it back to `'pending'`. -/
theorem terminal_status_counterexample :
    (complete_task demoFailedQueue 0).tasks.map Task.status
      = [TaskStatus.completed] ∧
    (fail_task demoCompletedQueue 0).tasks.map
        (fun t => (t.status, t.retryCount)) = [(TaskStatus.pending, 1)] := by
  decide

/-- Witness for C8: on the demo queue, claiming flips the unique pending task
to processing, and completing the claimed task yields `'completed'`. -/
theorem task_status_transitions_witness :
    demoTask1.status = TaskStatus.pending ∧
    demoQueue1Claimed.tasks = setStatus demoQueue1.tasks demoTask1.id
      TaskStatus.processing ∧
    demoTask1Completed.status = TaskStatus.completed :=
  ⟨(task_status_transitions.1 demoQueue1 none demoTask1 demoQueue1Claimed
      (by decide)).1,
   (task_status_transitions.1 demoQueue1 none demoTask1 demoQueue1Claimed
      (by decide)).2.1,
   task_status_transitions.2.2.1 demoQueue1Claimed 0 demoTask1Completed
      (by decide) (by decide)⟩

/-- Claim runs preserve the well-formedness bound (every id below the
counter) and never hand out an id twice: the claimed-id list of any run of
enqueues and claims is duplicate-free, and an id all of whose rows are
already `'processing'` is never claimed again. -/
theorem runOps_claims_nodup : ∀ (ops : List QueueOp) (q : TaskQueue),
    (∀ u ∈ q.tasks, u.id < q.next) →
    ((runOps q ops).2.map Task.id).Nodup ∧
    ∀ i, i < q.next →
      (∀ u ∈ q.tasks, u.id = i → u.status = TaskStatus.processing) →
      i ∉ (runOps q ops).2.map Task.id := by
  intro ops
  induction ops with
  | nil =>
    intro q hWF
    simp [runOps]
  | cons op ops ih =>
    intro q hWF
    cases op with
    | enqueue ty pl pr =>
      have hrun : runOps q (QueueOp.enqueue ty pl pr :: ops)
          = runOps (enqueue_task q ty pl pr).2 ops := by
        simp [runOps]
      rw [hrun]
      have hWF' : ∀ u ∈ (enqueue_task q ty pl pr).2.tasks,
          u.id < (enqueue_task q ty pl pr).2.next := by
        intro u hu
        simp only [enqueue_task] at hu ⊢
        rcases List.mem_append.mp hu with h | h
        · exact Nat.lt_succ_of_lt (hWF u h)
        · simp only [List.mem_singleton] at h
          rw [h]
          exact Nat.lt_succ_self _
      refine ⟨(ih _ hWF').1, ?_⟩
      intro i hi hLock
      refine (ih _ hWF').2 i ?_ ?_
      · simp only [enqueue_task]
        exact Nat.lt_succ_of_lt hi
      · intro u hu hid
        simp only [enqueue_task] at hu
        rcases List.mem_append.mp hu with h | h
        · exact hLock u h hid
        · simp only [List.mem_singleton] at h
          rw [h] at hid
          simp only [] at hid
          omega
    | claim wt =>
      rcases hp : pop_task q wt with ⟨res, q'⟩
      cases res with
      | none =>
        have hq : q' = q := pop_task_none hp
        rw [hq] at hp
        have hrun : runOps q (QueueOp.claim wt :: ops) = runOps q ops := by
          simp [runOps, hp]
        rw [hrun]
        exact ih q hWF
      | some t =>
        obtain ⟨hmem, hpend, _, hq'⟩ := pop_task_some hp
        have hrun : runOps q (QueueOp.claim wt :: ops)
            = ((runOps q' ops).1, t :: (runOps q' ops).2) := by
          simp [runOps, hp]
        have hWF' : ∀ u ∈ q'.tasks, u.id < q'.next := by
          intro u hu
          rw [hq'] at hu ⊢
          simp only [setStatus] at hu
          obtain ⟨v, hv, rfl⟩ := List.mem_map.mp hu
          have hvlt := hWF v hv
          by_cases h : v.id = t.id <;> simp [h] <;> omega
        have hLock' : ∀ u ∈ q'.tasks, u.id = t.id →
            u.status = TaskStatus.processing := by
          intro u hu hid
          rw [hq'] at hu
          simp only [setStatus] at hu
          obtain ⟨v, hv, rfl⟩ := List.mem_map.mp hu
          by_cases h : v.id = t.id
          · rw [if_pos h]
          · rw [if_neg h] at hid
            exact absurd hid h
        have htid : t.id < q.next := hWF t hmem
        have hnq' : q'.next = q.next := by rw [hq']
        rw [hrun]
        constructor
        · simp only [List.map_cons, List.nodup_cons]
          exact ⟨(ih q' hWF').2 t.id (by rw [hnq']; exact htid) hLock',
            (ih q' hWF').1⟩
        · intro i hi hLock
          simp only [List.map_cons]
          intro hor
          rcases List.mem_cons.mp hor with heq | hmem2
          · have hproc := hLock t hmem heq.symm
            rw [hpend] at hproc
            exact TaskStatus.noConfusion hproc
          · refine absurd hmem2 ((ih q' hWF').2 i (by rw [hnq']; exact hi) ?_)
            intro u hu hid
            rw [hq'] at hu
            simp only [setStatus] at hu
            obtain ⟨v, hv, rfl⟩ := List.mem_map.mp hu
            by_cases h : v.id = t.id
            · rw [if_pos h]
            · rw [if_neg h] at hid ⊢
              exact hLock v hv hid

/-- C2: over every sequence of enqueue and claim calls from an empty queue
(no intervening fail), no two claim calls return the same task id; a claim
returns only a `'pending'` task and atomically moves exactly that task to
`'processing'`. -/
theorem pop_task_exclusive :
    (∀ ops : List QueueOp,
      (((runOps emptyQueue ops).2).map Task.id).Nodup) ∧
    (∀ (q : TaskQueue) (wt : Option String) (t : Task) (q' : TaskQueue),
      pop_task q wt = (some t, q') →
        t.status = TaskStatus.pending ∧
        ∀ u ∈ q'.tasks, u.id = t.id → u.status = TaskStatus.processing) := by
  constructor
  · intro ops
    exact (runOps_claims_nodup ops emptyQueue (by simp [emptyQueue])).1
  · intro q wt t q' h
    obtain ⟨_, hpend, _, hq'⟩ := pop_task_some h
    refine ⟨hpend, fun u hu hid => ?_⟩
    rw [hq'] at hu
    simp only [setStatus] at hu
    obtain ⟨v, hv, rfl⟩ := List.mem_map.mp hu
    by_cases hveq : v.id = t.id
    · rw [if_pos hveq]
    · rw [if_neg hveq] at hid
      exact absurd hid hveq

/-- Witness for C2: a concrete run (two enqueues, three scout claims) yields
the distinct claimed ids `[0, 1]`, and the demo claim returns a pending
task. -/
theorem pop_task_exclusive_witness :
    ((runOps emptyQueue demoOps).2.map Task.id).Nodup ∧
    (runOps emptyQueue demoOps).2.map Task.id = [0, 1] ∧
    demoTask1.status = TaskStatus.pending :=
  ⟨pop_task_exclusive.1 demoOps, by decide,
   (pop_task_exclusive.2 demoQueue1 none demoTask1 demoQueue1Claimed
      (by decide)).1⟩

/-- C9: a forced rotation returns a pool tactic and, as long as some pool
tactic is not among the mission's immediately preceding 3 recorded
selections, the returned tactic is not among them either; only when every
pool tactic is among them (possible only for a pool of at most 3 names) does
it fall back to the full pool. -/
theorem rotate_tactic_avoids_recent (engine : TacticEngine)
    (missionName : String) (pick : Nat) (t : SearchTactic)
    (engine' : TacticEngine)
    (h : rotate_tactic engine missionName pick = some (t, engine')) :
    t ∈ engine.tactics ∧
    ((∃ u ∈ engine.tactics, u.name ∉ lastN 3 (engine.history missionName)) →
      t.name ∉ lastN 3 (engine.history missionName)) := by
  simp only [rotate_tactic] at h
  cases hg : (rotate_available engine missionName).get?
      (pick % (rotate_available engine missionName).length) with
  | none => rw [hg] at h; simp at h
  | some sel =>
    rw [hg] at h
    rw [Option.map_some'] at h
    injection h with h1
    injection h1 with h2 h3
    have hsel : t ∈ rotate_available engine missionName := by
      rw [← h2]
      exact List.get?_mem hg
    simp only [rotate_available] at hsel
    by_cases hemp : (engine.tactics.filter fun u =>
        decide (u.name ∉ lastN 3 (engine.history missionName))).isEmpty = true
    · rw [if_pos hemp] at hsel
      refine ⟨hsel, fun hex => ?_⟩
      exfalso
      obtain ⟨u, hu, hnot⟩ := hex
      have hnil := List.isEmpty_iff.mp hemp
      have := List.filter_eq_nil_iff.mp hnil u hu
      simp at this
      exact hnot this
    · rw [if_neg hemp] at hsel
      have hf := List.mem_filter.mp hsel
      refine ⟨hf.1, fun _ => ?_⟩
      simpa using hf.2

/-- Witness for C9: with the default six-tactic pool and recent history
`[trending, rising_stars, established]`, rotation at draw index 0 returns
`deep_dive`, which is a pool member outside the recent three. -/
theorem rotate_tactic_avoids_recent_witness :
    demoDeepDive ∈ demoEngine.tactics ∧
    demoDeepDive.name ∉ lastN 3 (demoEngine.history "m") :=
  ⟨(rotate_tactic_avoids_recent demoEngine "m" 0 demoDeepDive _ rfl).1,
   (rotate_tactic_avoids_recent demoEngine "m" 0 demoDeepDive _ rfl).2
     (by decide)⟩

/-- C10: `update_tactic_weight` sets the named tactic's weight to
`clamp(0.5 + 1.5 * success_rate, 0.3, 2.0)` — that is,
`max 0.3 (min 2 (0.5 + 1.5 * rate))` — for every input rate, including
rates outside `[0, 1]`, so the resulting weight lies in `[0.3, 2.0]`. -/
theorem update_tactic_weight_clamped (engine : TacticEngine)
    (tacticName : String) (successRate : ℚ) (t' : SearchTactic)
    (hmem : t' ∈ (update_tactic_weight engine tacticName successRate).tactics)
    (hname : t'.name = tacticName) :
    t'.weight = max (3/10) (min 2 (1/2 + 3/2 * successRate)) ∧
    3/10 ≤ t'.weight ∧ t'.weight ≤ 2 := by
  simp only [update_tactic_weight] at hmem
  by_cases hany : (engine.tactics.any fun t => t.name == tacticName) = true
  · rw [if_pos hany] at hmem
    obtain ⟨v, hv, rfl⟩ := List.mem_map.mp hmem
    by_cases hveq : v.name = tacticName
    · rw [if_pos hveq]
      exact ⟨rfl, le_max_left _ _, max_le (by norm_num) (min_le_left _ _)⟩
    · rw [if_neg hveq] at hname
      exact absurd hname hveq
  · rw [if_neg hany] at hmem
    exact absurd (List.any_eq_true.mpr ⟨t', hmem, by simp [hname]⟩) hany

section BisectionLemmas

/-- Chains compose end to end. -/
theorem chainFrom_append {a b c : ℚ} {l1 l2 : List (ℚ × ℚ)}
    (h1 : chainFrom a l1 b) (h2 : chainFrom b l2 c) :
    chainFrom a (l1 ++ l2) c := by
  induction l1 generalizing a with
  | nil =>
    simp only [chainFrom] at h1
    rw [List.nil_append, h1]
    exact h2
  | cons w l ih =>
    simp only [chainFrom] at h1 ⊢
    exact ⟨h1.1, ih h1.2⟩

/-- A chain of left-to-right windows runs from a smaller to a larger bound. -/
theorem chainFrom_le {a b : ℚ} {l : List (ℚ × ℚ)} (h : chainFrom a l b)
    (hw : ∀ w ∈ l, w.1 ≤ w.2) : a ≤ b := by
  induction l generalizing a with
  | nil =>
    simp only [chainFrom] at h
    exact le_of_eq h
  | cons w l ih =>
    simp only [chainFrom] at h
    have h1 : a ≤ w.2 := h.1 ▸ hw w (List.mem_cons_self _ _)
    exact le_trans h1 (ih h.2 fun w' hw' => hw w' (List.mem_cons_of_mem _ hw'))

/-- Every window of a chain lies inside the chain's bounds. -/
theorem chainFrom_bounds {a b : ℚ} {l : List (ℚ × ℚ)} (h : chainFrom a l b)
    (hw : ∀ w ∈ l, w.1 ≤ w.2) : ∀ w ∈ l, a ≤ w.1 ∧ w.2 ≤ b := by
  induction l generalizing a with
  | nil => intro w hwmem; cases hwmem
  | cons w0 l ih =>
    simp only [chainFrom] at h
    have hwtail : ∀ w ∈ l, w.1 ≤ w.2 :=
      fun w' hw' => hw w' (List.mem_cons_of_mem _ hw')
    intro w hwmem
    rcases List.mem_cons.mp hwmem with rfl | hmem
    · exact ⟨le_of_eq h.1.symm, chainFrom_le h.2 hwtail⟩
    · have hrec := ih h.2 hwtail w hmem
      have h0 : a ≤ w0.2 := h.1 ▸ hw w0 (List.mem_cons_self _ _)
      exact ⟨le_trans h0 hrec.1, hrec.2⟩

/-- Along a chain, every window ends no later than every later window
starts: interiors are pairwise disjoint. -/
theorem chainFrom_pairwise {a b : ℚ} {l : List (ℚ × ℚ)} (h : chainFrom a l b)
    (hw : ∀ w ∈ l, w.1 ≤ w.2) :
    l.Pairwise (fun w w' => w.2 ≤ w'.1) := by
  induction l generalizing a with
  | nil => exact List.Pairwise.nil
  | cons w0 l ih =>
    simp only [chainFrom] at h
    have hwtail : ∀ w ∈ l, w.1 ≤ w.2 :=
      fun w' hw' => hw w' (List.mem_cons_of_mem _ hw')
    exact List.Pairwise.cons
      (fun w' hw' => (chainFrom_bounds h.2 hwtail w' hw').1) (ih h.2 hwtail)

/-- A nonempty chain covers exactly the interval between its bounds: no
point is missed (no gaps) and no covered point lies outside. -/
theorem chainFrom_union {a b : ℚ} {l : List (ℚ × ℚ)} (h : chainFrom a l b)
    (hw : ∀ w ∈ l, w.1 ≤ w.2) (hne : l ≠ []) :
    ∀ x : ℚ, x ∈ Set.Icc a b ↔ ∃ w ∈ l, x ∈ Set.Icc w.1 w.2 := by
  induction l generalizing a with
  | nil => exact absurd rfl hne
  | cons w0 l ih =>
    simp only [chainFrom] at h
    obtain ⟨hw0a, htail⟩ := h
    have hwtail : ∀ w ∈ l, w.1 ≤ w.2 :=
      fun w' hw' => hw w' (List.mem_cons_of_mem _ hw')
    intro x
    cases l with
    | nil =>
      simp only [chainFrom] at htail
      simp [hw0a, htail]
    | cons w1 ltl =>
      have hta : w0.2 ≤ b := chainFrom_le htail hwtail
      have haw : a ≤ w0.2 := hw0a ▸ hw w0 (List.mem_cons_self _ _)
      have hx : x ∈ Set.Icc a b ↔
          x ∈ Set.Icc a w0.2 ∨ x ∈ Set.Icc w0.2 b := by
        rw [← Set.Icc_union_Icc_eq_Icc haw hta]
        simp [Set.mem_union]
      rw [hx]
      have ihx := ih htail hwtail (by simp) x
      constructor
      · rintro (h1 | h2)
        · exact ⟨w0, List.mem_cons_self _ _, by rw [hw0a]; exact h1⟩
        · obtain ⟨w, hwmem, hxin⟩ := ihx.mp h2
          exact ⟨w, List.mem_cons_of_mem _ hwmem, hxin⟩
      · rintro ⟨w, hwmem, hxin⟩
        rcases List.mem_cons.mp hwmem with rfl | hmem
        · left
          rw [← hw0a]
          exact hxin
        · right
          exact ihx.mpr ⟨w, hmem, hxin⟩

/-- The leaves of a terminating bisection form a nonempty chain from start
to end whose windows are all at or under the cap. -/
theorem bisectLeaves_spec : ∀ (fuel : Nat) (counts : ℚ → ℚ → Nat) (s e : ℚ)
    (l : List (ℚ × ℚ)), s ≤ e → bisectLeaves counts fuel s e = some l →
    chainFrom s l e ∧ (∀ w ∈ l, w.1 ≤ w.2 ∧ counts w.1 w.2 ≤ 1000) ∧
    l ≠ [] := by
  intro fuel
  induction fuel with
  | zero =>
    intro counts s e l _ h
    simp [bisectLeaves] at h
  | succ fuel ih =>
    intro counts s e l hse h
    rw [bisectLeaves] at h
    by_cases hc : counts s e > 1000
    · rw [if_pos hc] at h
      have hsm : s ≤ (split_date_range s e).2.1 := by
        simp only [split_date_range]
        linarith
      have hme : (split_date_range s e).2.1 ≤ e := by
        simp only [split_date_range]
        linarith
      cases h1 : bisectLeaves counts fuel s (split_date_range s e).2.1 with
      | none =>
        rw [h1] at h
        simp at h
      | some l1 =>
        cases h2 : bisectLeaves counts fuel (split_date_range s e).2.1 e with
        | none =>
          rw [h1, h2] at h
          simp at h
        | some l2 =>
          rw [h1, h2] at h
          simp only [] at h
          obtain rfl : l1 ++ l2 = l := Option.some.inj h
          obtain ⟨hch1, hw1, hne1⟩ := ih counts s _ l1 hsm h1
          obtain ⟨hch2, hw2, _⟩ := ih counts _ e l2 hme h2
          refine ⟨chainFrom_append hch1 hch2, ?_, by simp [hne1]⟩
          intro w hwmem
          rcases List.mem_append.mp hwmem with hm | hm
          · exact hw1 w hm
          · exact hw2 w hm
    · rw [if_neg hc] at h
      obtain rfl : [(s, e)] = l := Option.some.inj h
      refine ⟨?_, ?_, by simp⟩
      · exact ⟨rfl, rfl⟩
      · intro w hwmem
        simp only [List.mem_singleton] at hwmem
        rw [hwmem]
        exact ⟨hse, not_lt.mp hc⟩

end BisectionLemmas

/-- C6 (amended): whenever the recursive bisection of `[s, e]` terminates,
its leaf windows chain from `s` to `e` (each window starts where the
previous one ends — no gaps), every leaf's result count is at or under the
cap 1000, along the chain each window ends no later than any later window
starts (so interiors are pairwise disjoint — distinct leaves can share at
most a boundary endpoint), and the union of the leaves is exactly
`[s, e]`.  The literal no-overlap reading fails: adjacent leaves share their
boundary instant (see the counterexample). -/
theorem bisect_partition (counts : ℚ → ℚ → Nat) (fuel : Nat) (s e : ℚ)
    (l : List (ℚ × ℚ)) (hse : s ≤ e)
    (hb : bisectLeaves counts fuel s e = some l) :
    chainFrom s l e ∧
    (∀ w ∈ l, w.1 ≤ w.2 ∧ counts w.1 w.2 ≤ 1000) ∧
    l.Pairwise (fun w w' => w.2 ≤ w'.1) ∧
    (∀ x : ℚ, x ∈ Set.Icc s e ↔ ∃ w ∈ l, x ∈ Set.Icc w.1 w.2) := by
  obtain ⟨hch, hw, hne⟩ := bisectLeaves_spec fuel counts s e l hse hb
  have hw1 : ∀ w ∈ l, w.1 ≤ w.2 := fun w h => (hw w h).1
  exact ⟨hch, hw, chainFrom_pairwise hch hw1, chainFrom_union hch hw1 hne⟩

/-- C6 counterexample: under `overCapCounts` the bisection of `[0, 2]`
terminates with the two distinct leaves `[0, 1]` and `[1, 2]` — and they
overlap: the boundary instant 1 belongs to both (the dated queries
`created:s..e` are inclusive on both ends), so the leaves are a cover with
shared endpoints, not a partition in the strict no-overlap sense. -/
theorem bisect_overlap_counterexample :
    bisectLeaves overCapCounts 2 0 2 = some [(0, 1), (1, 2)] ∧
    ((0 : ℚ), (1 : ℚ)) ≠ ((1 : ℚ), (2 : ℚ)) ∧
    (1 : ℚ) ∈ Set.Icc (0 : ℚ) 1 ∧ (1 : ℚ) ∈ Set.Icc (1 : ℚ) 2 := by
  refine ⟨by norm_num [bisectLeaves, overCapCounts, split_date_range],
    by norm_num, ?_, ?_⟩
  · exact Set.mem_Icc.mpr ⟨by norm_num, by norm_num⟩
  · exact Set.mem_Icc.mpr ⟨by norm_num, by norm_num⟩

/-- Witness for C6 on the concrete over-cap window `[0, 2]`: the two leaves
chain from 0 to 2 and satisfy the pairwise end-before-start ordering. -/
theorem bisect_partition_witness :
    chainFrom 0 [((0 : ℚ), (1 : ℚ)), ((1 : ℚ), (2 : ℚ))] 2 ∧
    List.Pairwise (fun w w' => w.2 ≤ w'.1)
      [((0 : ℚ), (1 : ℚ)), ((1 : ℚ), (2 : ℚ))] :=
  ⟨(bisect_partition overCapCounts 2 0 2 [(0, 1), (1, 2)] (by norm_num)
      (by norm_num [bisectLeaves, overCapCounts, split_date_range])).1,
   (bisect_partition overCapCounts 2 0 2 [(0, 1), (1, 2)] (by norm_num)
      (by norm_num [bisectLeaves, overCapCounts, split_date_range])).2.2.1⟩

/-- Witness for C10 at success rate 2 (outside [0, 1]): the `trending`
weight becomes `max 0.3 (min 2 3.5) = 2`, inside the clamp interval. -/
theorem update_tactic_weight_clamped_witness :
    demoTrendingUpdated.weight = max (3/10) (min 2 (1/2 + 3/2 * 2)) ∧
    (3/10 : ℚ) ≤ demoTrendingUpdated.weight ∧ demoTrendingUpdated.weight ≤ 2 :=
  update_tactic_weight_clamped TacticEngine.init "trending" 2
    demoTrendingUpdated
    (by
      have h : (update_tactic_weight TacticEngine.init "trending" 2).tactics
          = demoTrendingUpdated :: DEFAULT_TACTICS.tail := by
        simp +decide [update_tactic_weight, TacticEngine.init, DEFAULT_TACTICS,
          demoTrendingUpdated]
        norm_num
      rw [h]
      exact List.mem_cons_self _ _)
    rfl

end Tuner
